import Mathlib

/-
Verification development for the qimcifa repository: a quantum-inspired
Monte Carlo integer-factoring engine.

The development shallowly embeds the two program variants:
  - src/src/qimcifa.cpp : the distributed engine (mainBody, waitForSuccess),
    covering the trial-division prefilter, range partitioner, random base
    sampler and the semiprime fast path;
  - src/qimcifa.cpp : the single-file historical variant, covering uipow,
    gcd and the continued-fraction period estimation.

The C++ wide integer type bitCapInt is modelled by Nat (the program selects
an arbitrary-width unsigned type wide enough that no intermediate product
overflows; width misconfiguration is out of scope).  The one place where a
fixed machine width leaks into the arithmetic regardless of the chosen
bitCapInt width is the expression  base & ~1U  in the sampler: ~1U is the
32-bit constant 0xFFFFFFFE, so the bitwise AND clears bit 0 and every bit
at position 32 and above.  That step is embedded with an explicit % 2 ^ 32.
-/

namespace Qimcifa

/-- The fixed table of the first 1000 primes from src/src/qimcifa.cpp, lines 180-233. -/
def trialDivisionPrimes : List Nat := [
  2, 3, 5, 7, 11, 13, 17, 19, 23, 29, 31, 37, 41, 43, 47, 53, 59, 61, 67, 71, 73, 79, 83, 89, 97, 
  101, 103, 107, 109, 113, 127, 131, 137, 139, 149, 151, 157, 163, 167, 173, 179, 181, 191, 193, 
  197, 199, 211, 223, 227, 229, 233, 239, 241, 251, 257, 263, 269, 271, 277, 281, 283, 293, 307, 
  311, 313, 317, 331, 337, 347, 349, 353, 359, 367, 373, 379, 383, 389, 397, 401, 409, 419, 421, 
  431, 433, 439, 443, 449, 457, 461, 463, 467, 479, 487, 491, 499, 503, 509, 521, 523, 541, 547, 
  557, 563, 569, 571, 577, 587, 593, 599, 601, 607, 613, 617, 619, 631, 641, 643, 647, 653, 659, 
  661, 673, 677, 683, 691, 701, 709, 719, 727, 733, 739, 743, 751, 757, 761, 769, 773, 787, 797, 
  809, 811, 821, 823, 827, 829, 839, 853, 857, 859, 863, 877, 881, 883, 887, 907, 911, 919, 929, 
  937, 941, 947, 953, 967, 971, 977, 983, 991, 997, 1009, 1013, 1019, 1021, 1031, 1033, 1039, 1049, 
  1051, 1061, 1063, 1069, 1087, 1091, 1093, 1097, 1103, 1109, 1117, 1123, 1129, 1151, 1153, 1163, 
  1171, 1181, 1187, 1193, 1201, 1213, 1217, 1223, 1229, 1231, 1237, 1249, 1259, 1277, 1279, 1283, 
  1289, 1291, 1297, 1301, 1303, 1307, 1319, 1321, 1327, 1361, 1367, 1373, 1381, 1399, 1409, 1423, 
  1427, 1429, 1433, 1439, 1447, 1451, 1453, 1459, 1471, 1481, 1483, 1487, 1489, 1493, 1499, 1511, 
  1523, 1531, 1543, 1549, 1553, 1559, 1567, 1571, 1579, 1583, 1597, 1601, 1607, 1609, 1613, 1619, 
  1621, 1627, 1637, 1657, 1663, 1667, 1669, 1693, 1697, 1699, 1709, 1721, 1723, 1733, 1741, 1747, 
  1753, 1759, 1777, 1783, 1787, 1789, 1801, 1811, 1823, 1831, 1847, 1861, 1867, 1871, 1873, 1877, 
  1879, 1889, 1901, 1907, 1913, 1931, 1933, 1949, 1951, 1973, 1979, 1987, 1993, 1997, 1999, 2003, 
  2011, 2017, 2027, 2029, 2039, 2053, 2063, 2069, 2081, 2083, 2087, 2089, 2099, 2111, 2113, 2129, 
  2131, 2137, 2141, 2143, 2153, 2161, 2179, 2203, 2207, 2213, 2221, 2237, 2239, 2243, 2251, 2267, 
  2269, 2273, 2281, 2287, 2293, 2297, 2309, 2311, 2333, 2339, 2341, 2347, 2351, 2357, 2371, 2377, 
  2381, 2383, 2389, 2393, 2399, 2411, 2417, 2423, 2437, 2441, 2447, 2459, 2467, 2473, 2477, 2503, 
  2521, 2531, 2539, 2543, 2549, 2551, 2557, 2579, 2591, 2593, 2609, 2617, 2621, 2633, 2647, 2657, 
  2659, 2663, 2671, 2677, 2683, 2687, 2689, 2693, 2699, 2707, 2711, 2713, 2719, 2729, 2731, 2741, 
  2749, 2753, 2767, 2777, 2789, 2791, 2797, 2801, 2803, 2819, 2833, 2837, 2843, 2851, 2857, 2861, 
  2879, 2887, 2897, 2903, 2909, 2917, 2927, 2939, 2953, 2957, 2963, 2969, 2971, 2999, 3001, 3011, 
  3019, 3023, 3037, 3041, 3049, 3061, 3067, 3079, 3083, 3089, 3109, 3119, 3121, 3137, 3163, 3167, 
  3169, 3181, 3187, 3191, 3203, 3209, 3217, 3221, 3229, 3251, 3253, 3257, 3259, 3271, 3299, 3301, 
  3307, 3313, 3319, 3323, 3329, 3331, 3343, 3347, 3359, 3361, 3371, 3373, 3389, 3391, 3407, 3413, 
  3433, 3449, 3457, 3461, 3463, 3467, 3469, 3491, 3499, 3511, 3517, 3527, 3529, 3533, 3539, 3541, 
  3547, 3557, 3559, 3571, 3581, 3583, 3593, 3607, 3613, 3617, 3623, 3631, 3637, 3643, 3659, 3671, 
  3673, 3677, 3691, 3697, 3701, 3709, 3719, 3727, 3733, 3739, 3761, 3767, 3769, 3779, 3793, 3797, 
  3803, 3821, 3823, 3833, 3847, 3851, 3853, 3863, 3877, 3881, 3889, 3907, 3911, 3917, 3919, 3923, 
  3929, 3931, 3943, 3947, 3967, 3989, 4001, 4003, 4007, 4013, 4019, 4021, 4027, 4049, 4051, 4057, 
  4073, 4079, 4091, 4093, 4099, 4111, 4127, 4129, 4133, 4139, 4153, 4157, 4159, 4177, 4201, 4211, 
  4217, 4219, 4229, 4231, 4241, 4243, 4253, 4259, 4261, 4271, 4273, 4283, 4289, 4297, 4327, 4337, 
  4339, 4349, 4357, 4363, 4373, 4391, 4397, 4409, 4421, 4423, 4441, 4447, 4451, 4457, 4463, 4481, 
  4483, 4493, 4507, 4513, 4517, 4519, 4523, 4547, 4549, 4561, 4567, 4583, 4591, 4597, 4603, 4621, 
  4637, 4639, 4643, 4649, 4651, 4657, 4663, 4673, 4679, 4691, 4703, 4721, 4723, 4729, 4733, 4751, 
  4759, 4783, 4787, 4789, 4793, 4799, 4801, 4813, 4817, 4831, 4861, 4871, 4877, 4889, 4903, 4909, 
  4919, 4931, 4933, 4937, 4943, 4951, 4957, 4967, 4969, 4973, 4987, 4993, 4999, 5003, 5009, 5011, 
  5021, 5023, 5039, 5051, 5059, 5077, 5081, 5087, 5099, 5101, 5107, 5113, 5119, 5147, 5153, 5167, 
  5171, 5179, 5189, 5197, 5209, 5227, 5231, 5233, 5237, 5261, 5273, 5279, 5281, 5297, 5303, 5309, 
  5323, 5333, 5347, 5351, 5381, 5387, 5393, 5399, 5407, 5413, 5417, 5419, 5431, 5437, 5441, 5443, 
  5449, 5471, 5477, 5479, 5483, 5501, 5503, 5507, 5519, 5521, 5527, 5531, 5557, 5563, 5569, 5573, 
  5581, 5591, 5623, 5639, 5641, 5647, 5651, 5653, 5657, 5659, 5669, 5683, 5689, 5693, 5701, 5711, 
  5717, 5737, 5741, 5743, 5749, 5779, 5783, 5791, 5801, 5807, 5813, 5821, 5827, 5839, 5843, 5849, 
  5851, 5857, 5861, 5867, 5869, 5879, 5881, 5897, 5903, 5923, 5927, 5939, 5953, 5981, 5987, 6007, 
  6011, 6029, 6037, 6043, 6047, 6053, 6067, 6073, 6079, 6089, 6091, 6101, 6113, 6121, 6131, 6133, 
  6143, 6151, 6163, 6173, 6197, 6199, 6203, 6211, 6217, 6221, 6229, 6247, 6257, 6263, 6269, 6271, 
  6277, 6287, 6299, 6301, 6311, 6317, 6323, 6329, 6337, 6343, 6353, 6359, 6361, 6367, 6373, 6379, 
  6389, 6397, 6421, 6427, 6449, 6451, 6469, 6473, 6481, 6491, 6521, 6529, 6547, 6551, 6553, 6563, 
  6569, 6571, 6577, 6581, 6599, 6607, 6619, 6637, 6653, 6659, 6661, 6673, 6679, 6689, 6691, 6701, 
  6703, 6709, 6719, 6733, 6737, 6761, 6763, 6779, 6781, 6791, 6793, 6803, 6823, 6827, 6829, 6833, 
  6841, 6857, 6863, 6869, 6871, 6883, 6899, 6907, 6911, 6917, 6947, 6949, 6959, 6961, 6967, 6971, 
  6977, 6983, 6991, 6997, 7001, 7013, 7019, 7027, 7039, 7043, 7057, 7069, 7079, 7103, 7109, 7121, 
  7127, 7129, 7151, 7159, 7177, 7187, 7193, 7207, 7211, 7213, 7219, 7229, 7237, 7243, 7247, 7253, 
  7283, 7297, 7307, 7309, 7321, 7331, 7333, 7349, 7351, 7369, 7393, 7411, 7417, 7433, 7451, 7457, 
  7459, 7477, 7481, 7487, 7489, 7499, 7507, 7517, 7523, 7529, 7537, 7541, 7547, 7549, 7559, 7561, 
  7573, 7577, 7583, 7589, 7591, 7603, 7607, 7621, 7639, 7643, 7649, 7669, 7673, 7681, 7687, 7691, 
  7699, 7703, 7717, 7723, 7727, 7741, 7753, 7757, 7759, 7789, 7793, 7817, 7823, 7829, 7841, 7853, 
  7867, 7873, 7877, 7879, 7883, 7901, 7907, 7919]

/-- Embeds pickTrialDivisionLevel (src/src/qimcifa.cpp, lines 54-82) with
TRIAL_DIVISION_LEVEL_OVERRIDE = 0: a fixed lookup table for qubitCount up to 70 and,
above that, the C expression (unsigned)(exp(1.69 + 0.0971 * qubitCount) + 0.5).
The double-precision exp is modelled by the exact real exponential; the cast to
unsigned truncates the positive value toward zero, i.e. takes the natural floor. -/
noncomputable def pickTrialDivisionLevel (qubitCount : Nat) : Nat :=
  if qubitCount ≤ 58 then 59
  else if qubitCount ≤ 60 then 191
  else if qubitCount ≤ 62 then 193
  else if qubitCount ≤ 64 then 199
  else if qubitCount ≤ 66 then 211
  else if qubitCount ≤ 68 then 229
  else if qubitCount ≤ 70 then 233
  else ⌊Real.exp (1.69 + 0.0971 * (qubitCount : ℝ)) + 1 / 2⌋₊

/-- Embeds the primeIndex computation of mainBody (src/src/qimcifa.cpp, lines 236-255
and again 278-293): walk the prime table while the current prime is at most the
trial-division level, leaving primeIndex at the first index whose prime exceeds the
level, clamped to the last table index.  Because the table is sorted, that index is
the number of table primes not exceeding the level. -/
def primeIndexFor (L : Nat) : Nat :=
  min ((trialDivisionPrimes.filter (fun p => p ≤ L)).length) (trialDivisionPrimes.length - 1)

/-- Embeds the primeDict lookup table of mainBody (src/src/qimcifa.cpp, lines 258-263),
keyed by the bit-length of the expected prime factor. -/
def primeDict (primeBits : Nat) : List Nat :=
  if primeBits = 16 then [16411, 131071]
  else if primeBits = 28 then [67108879, 536870909]
  else if primeBits = 32 then [1073741827, 8589934583]
  else []

/-- Embeds fullMinBase (src/src/qimcifa.cpp, lines 265-267, IS_RSA_SEMIPRIME path):
primeBits = (qubitCount + 1) >> 1; the dictionary entry when present, otherwise
(1 << (primeBits - 2)) | 1. -/
def fullMinBase (qc : Nat) : Nat :=
  let pb := (qc + 1) / 2
  if (primeDict pb).length ≠ 0 then (primeDict pb).getD 0 0 else (1 <<< (pb - 2)) ||| 1

/-- Embeds fullMaxBase (src/src/qimcifa.cpp, lines 268-269): the dictionary entry when
present, otherwise (1 << (primeBits + 1)) - 1. -/
def fullMaxBase (qc : Nat) : Nat :=
  let pb := (qc + 1) / 2
  if (primeDict pb).length ≠ 0 then (primeDict pb).getD 1 0 else (1 <<< (pb + 1)) - 1

/-- Helper for the bit-length loop of main (src/src/qimcifa.cpp, lines 373-378):
counts how often p can be halved before reaching zero.  The explicit fuel makes
the recursion structural; fuel equal to the starting value is always sufficient,
because p strictly decreases at every step. -/
def log2floorAux : Nat → Nat → Nat
  | 0, _ => 0
  | (fuel + 1), p => if p = 0 then 0 else log2floorAux fuel (p / 2) + 1

/-- Embeds the qubit-count loop of main (src/src/qimcifa.cpp, lines 373-378):
shift the input right once, then count further shifts until zero. -/
def log2floor (n : Nat) : Nat := log2floorAux n (n / 2)

/-- Embeds the power-of-two test of main (src/src/qimcifa.cpp, line 380):
toFactor && !(toFactor & (toFactor - 1)). -/
def isPowerOfTwo (n : Nat) : Bool := n != 0 && (n &&& (n - 1)) == 0

/-- Embeds the qubitCount computation of main (src/src/qimcifa.cpp, lines 373-382):
the floor base-2 logarithm, plus one when the input is not a power of two. -/
def qubitCountOf (n : Nat) : Nat := log2floor n + (if isPowerOfTwo n then 0 else 1)

/-- Embeds the fullRange shrink loop of mainBody (src/src/qimcifa.cpp, lines 277-293):
for each table prime p up to the trial-division level, in ascending order,
fullRange = fullRange * (p - 1) / p with truncating division applied per prime. -/
def shrinkRange (L r0 : Nat) : Nat :=
  (trialDivisionPrimes.filter (fun p => p ≤ L)).foldl (fun r p => r * (p - 1) / p) r0

/-- Embeds nodeRange (src/src/qimcifa.cpp, line 295): (fullRange + nodeCount - 1) / nodeCount. -/
def nodeRangeD (fullRange nodeCount : Nat) : Nat := (fullRange + nodeCount - 1) / nodeCount

/-- Embeds nodeMin (src/src/qimcifa.cpp, line 296): fullMinBase + nodeRange * nodeId. -/
def nodeMinD (fullMin nodeRange nodeId : Nat) : Nat := fullMin + nodeRange * nodeId

/-- Embeds nodeMax (src/src/qimcifa.cpp, line 297): nodeMin + nodeRange. -/
def nodeMaxD (fullMin nodeRange nodeId : Nat) : Nat := fullMin + nodeRange * nodeId + nodeRange

/-- Embeds threadRange (src/src/qimcifa.cpp, line 322):
(cpuCount + nodeMax - (nodeMin - 1)) / cpuCount. -/
def threadRangeD (cpuCount nodeMin nodeMax : Nat) : Nat :=
  (cpuCount + nodeMax - (nodeMin - 1)) / cpuCount

/-- Embeds the per-thread minimum before alignment (src/src/qimcifa.cpp, line 325):
(nodeMin + threadRange * cpu) | 1. -/
def threadMinRawD (nodeMin threadRange cpu : Nat) : Nat := (nodeMin + threadRange * cpu) ||| 1

/-- Embeds threadMax (src/src/qimcifa.cpp, line 326): the pre-alignment thread minimum
plus threadRange. -/
def threadMaxD (threadMinRaw threadRange : Nat) : Nat := threadMinRaw + threadRange

/-- Embeds the alignment loop (src/src/qimcifa.cpp, lines 329-340): for each table prime
p up to the trial-division level, in ascending order, threadMin = threadMin / p * p. -/
def alignDown (L t0 : Nat) : Nat :=
  (trialDivisionPrimes.filter (fun p => p ≤ L)).foldl (fun t p => t / p * p) t0

/-- Embeds line 342 of src/src/qimcifa.cpp applied after the alignment loop:
threadMin = (threadMin | 1) + 2. -/
def threadMinAligned (L tRaw : Nat) : Nat := (alignDown L tRaw ||| 1) + 2

/-- Embeds the raw sampling range of workerFn (src/src/qimcifa.cpp, line 312):
range = threadMax - (threadMin + 1), with the aligned thread minimum. -/
def rangeD (threadMin threadMax : Nat) : Nat := threadMax - (threadMin + 1)

/-- Embeds the per-prime additive transform of waitForSuccess (src/src/qimcifa.cpp,
lines 129-132): for i from primeIndex down to 3, base += base / (primes[i] - 1) + 1. -/
def samplerPrimeSteps (pI v : Nat) : Nat :=
  ((List.range (pI - 2)).map (fun k => pI - k)).foldl
    (fun b i => b + b / (trialDivisionPrimes.getD i 0 - 1) + 1) v

/-- Embeds the candidate transform of waitForSuccess (src/src/qimcifa.cpp,
lines 129-140) up to the final addition of threadMin: the per-prime steps, then
base += (base >> 2) + 1, then base = ((base << 1) + base) & ~1U.
Since ~1U is the 32-bit constant 0xFFFFFFFE, the AND keeps only bits 1 to 31:
it is embedded as  % 2 ^ 32, clear bit 0. -/
def samplerEvenPart (pI v : Nat) : Nat :=
  let b1 := samplerPrimeSteps pI v
  let b2 := b1 + b1 / 4 + 1
  let b3 := (b2 <<< 1) + b2
  b3 % 2 ^ 32 / 2 * 2

/-- Embeds the full candidate of waitForSuccess (src/src/qimcifa.cpp, line 140):
the transformed draw plus threadMin. -/
def samplerCandidate (pI tMin v : Nat) : Nat := samplerEvenPart pI v + tMin

/-- Embeds the semiprime fast-path success test (src/src/qimcifa.cpp, line 144):
toFactor % base == 0. -/
def semiprimeCheck (N base : Nat) : Bool := N % base == 0

/-- Embeds the pair reported by the semiprime fast path (src/src/qimcifa.cpp,
line 146): printSuccess(base, toFactor / base, ...). -/
def semiprimeReport (N base : Nat) : Nat × Nat := (base, N / base)

/-- Embeds the general-path success guard of the historical variant
(src/qimcifa.cpp, line 277): ((f1 * f2) == toFactor) && (f1 > 1) && (f2 > 1). -/
def generalSuccessCheck (N f1 f2 : Nat) : Bool :=
  (f1 * f2 == N) && Nat.blt 1 f1 && Nat.blt 1 f2

/-- Helper for uipow: the loop of src/qimcifa.cpp, lines 89-98, with accumulator.
Each pass multiplies the accumulator by b when b (not the exponent!) is odd,
halves the exponent, stops when it reaches zero, and otherwise squares b. -/
def uipowAux (b e result : Nat) : Nat :=
  let r := if b % 2 = 1 then result * b else result
  let e2 := e / 2
  if e2 = 0 then r else uipowAux (b * b) e2 r
termination_by e
decreasing_by exact Nat.div_lt_self (by omega) (by omega)

/-- Embeds uipow (src/qimcifa.cpp, lines 84-101) exactly as written, including the
test of b & 1 in place of the exponent bit. -/
def uipow (base exp2 : Nat) : Nat := uipowAux base exp2 1

/-- Embeds the recursive gcd of src/qimcifa.cpp, lines 115-120. -/
def gcd (n1 n2 : Nat) : Nat :=
  if n2 = 0 then n1 else gcd n2 (n1 % n2)
termination_by n2
decreasing_by exact Nat.mod_lt _ (Nat.pos_of_ne_zero (by assumption))

/-- Fuel-indexed variant of gcd, used to state that the recursion of
src/qimcifa.cpp, lines 115-120 terminates: it returns none exactly when the
recursion depth exceeds the fuel. -/
def gcdFuel : Nat → Nat → Nat → Option Nat
  | 0, _, _ => none
  | (f + 1), n1, n2 => if n2 = 0 then some n1 else gcdFuel f n2 (n1 % n2)

/-- Embeds continued_fraction_step (src/qimcifa.cpp, lines 122-131): returns the
integer part together with the updated numerator and denominator. -/
def continued_fraction_step (numerator denominator : Nat) : Nat × Nat × Nat :=
  (numerator / denominator, denominator, numerator % denominator)

/-- Embeds calc_continued_fraction (src/qimcifa.cpp, lines 133-148) totally:
back() on an empty vector is modelled by none.  For a non-empty term list the
accumulator starts at (1, last term) and the loop folds the terms at indices
size - 1 down to 1 via temp = term * denom + numer. -/
def calc_continued_fraction (denominators : List Nat) : Option (Nat × Nat) :=
  match denominators.getLast? with
  | none => none
  | some lastD =>
    let idxs := (List.range (denominators.length - 1)).map (fun k => denominators.length - 1 - k)
    some (idxs.foldl
      (fun (p : Nat × Nat) i => (p.2, (denominators.getD i 0) * p.2 + p.1)) (1, lastD))

/-- Embeds the do-while expansion loop of src/qimcifa.cpp, lines 249-252: push the
next quotient term, recompute the convergent from the whole accumulated list, and
continue while the remainder denominator is positive and the convergent denominator
is still below toFactor.  A zero denominator entering the body is division by zero
in the source and is modelled by none; a none from calc_continued_fraction is
propagated. -/
def cfLoop (N : Nat) (acc : List Nat) (n d : Nat) : Option (List Nat) :=
  if hd : d = 0 then none
  else
    match calc_continued_fraction (acc ++ [n / d]) with
    | none => none
    | some pr =>
      if 0 < n % d ∧ pr.2 < N then cfLoop N (acc ++ [n / d]) d (n % d)
      else some (acc ++ [n / d])
termination_by d
decreasing_by exact Nat.mod_lt _ (Nat.pos_of_ne_zero hd)

/-- Embeds the period-candidate extraction of src/qimcifa.cpp, lines 243-260:
run the expansion loop from numerator = qubitPower and denominator = y, drop the
final overshooting term, and take r from the convergent of the remaining terms,
falling back to y when none remain.  Every unreachable branch (empty-list back())
is modelled by none. -/
def cfResult (N n0 y : Nat) : Option Nat :=
  match cfLoop N [] n0 y with
  | none => none
  | some full =>
    if full.dropLast.length = 0 then some y
    else
      match calc_continued_fraction full.dropLast with
      | none => none
      | some pr => some pr.2

/-- Status of one worker thread in the interleaving model of waitForSuccess
(src/src/qimcifa.cpp, lines 120-169): running inside a batch, checking the shared
flag at a batch boundary, stopped after reporting success, or halted after
observing the flag true. -/
inductive TStatus where
  | running : TStatus
  | checking : TStatus
  | succeeded : TStatus
  | halted : TStatus
deriving DecidableEq

/-- Per-thread state: candidates consumed so far (indexing the thread's draw
stream) and the thread status. -/
structure TState where
  cands : Nat
  status : TStatus
deriving DecidableEq

/-- Global state of the interleaving model: the shared atomic flag isFinished,
the thread states, and the ordered list of success reports (thread ids that
executed printSuccess). -/
structure MState where
  flag : Bool
  threads : List TState
  events : List Nat
deriving DecidableEq

/-- Embeds BASE_TRIALS (src/src/qimcifa.cpp, line 106): the batch length between
two reads of the shared flag. -/
def BASE_TRIALS : Nat := 2 ^ 16

/-- One scheduler step of thread i in the model of waitForSuccess
(src/src/qimcifa.cpp, lines 120-169, IS_RSA_SEMIPRIME path).  A running thread
consumes its next raw draw, forms the candidate, and on toFactor % base == 0 sets
the flag, reports (appends to events) and stops; otherwise it advances, moving to
a flag check after each BASE_TRIALS candidates.  A checking thread halts when the
flag is set and resumes otherwise.  Stopped and halted threads do nothing. -/
def stepThread (N pI tMin : Nat) (draws : Nat → Nat → Nat) (s : MState) (i : Nat) : MState :=
  match s.threads[i]? with
  | none => s
  | some t =>
    match t.status with
    | TStatus.succeeded => s
    | TStatus.halted => s
    | TStatus.checking =>
      if s.flag then
        MState.mk s.flag (s.threads.set i (TState.mk t.cands TStatus.halted)) s.events
      else
        MState.mk s.flag (s.threads.set i (TState.mk t.cands TStatus.running)) s.events
    | TStatus.running =>
      if N % samplerCandidate pI tMin (draws i t.cands) = 0 then
        MState.mk true (s.threads.set i (TState.mk t.cands TStatus.succeeded)) (s.events ++ [i])
      else
        MState.mk s.flag
          (s.threads.set i
            (TState.mk (t.cands + 1)
              (if (t.cands + 1) % BASE_TRIALS = 0 then TStatus.checking else TStatus.running)))
          s.events

/-- Run the model under an explicit interleaving: fold stepThread over the
schedule, a list of thread ids. -/
def execSched (N pI tMin : Nat) (draws : Nat → Nat → Nat) (sched : List Nat) (s : MState) :
    MState :=
  sched.foldl (stepThread N pI tMin draws) s

/-- The model's start state: flag false, n fresh running threads, no reports. -/
def initState (n : Nat) : MState :=
  MState.mk false (List.replicate n (TState.mk 0 TStatus.running)) []

/-- Status of thread i in a model state, none when i is out of range. -/
def statusOf (s : MState) (i : Nat) : Option TStatus :=
  (s.threads[i]?).map TState.status

/-- Number of success reports attributed to thread i in an event list. -/
def countEvents (i : Nat) (l : List Nat) : Nat := (l.filter (fun x => x == i)).length

/-- Invariant of the interleaving model: every thread has reported at most once,
and a thread that has reported is stopped (its success transition is final). -/
def EventsInv (s : MState) : Prop :=
  ∀ i, countEvents i s.events ≤ 1 ∧
    (1 ≤ countEvents i s.events → statusOf s i = some TStatus.succeeded)

/-- Setting the low bit with | 1 always produces an odd number. -/
theorem lor_one_mod_two (a : Nat) : (a ||| 1) % 2 = 1 := by
  have h : (a ||| 1).testBit 0 = true := by
    rw [Nat.testBit_or]
    simp
  simpa [Nat.testBit_zero] using h

/-- The aligned per-thread minimum (threadMin | 1) + 2 is odd. -/
theorem threadMinAligned_mod_two (L t : Nat) : threadMinAligned L t % 2 = 1 := by
  unfold threadMinAligned
  have h := lor_one_mod_two (alignDown L t)
  omega

/-- The aligned per-thread minimum (threadMin | 1) + 2 is at least 3. -/
theorem threadMinAligned_ge_three (L t : Nat) : 3 ≤ threadMinAligned L t := by
  unfold threadMinAligned
  have h := lor_one_mod_two (alignDown L t)
  omega

/-- The transformed draw before adding threadMin is even. -/
theorem samplerEvenPart_mod_two (pI v : Nat) : samplerEvenPart pI v % 2 = 0 := by
  unfold samplerEvenPart
  exact Nat.mul_mod_left _ 2

/-- Every sampler candidate is bounded below by the threadMin passed to it. -/
theorem samplerCandidate_ge_tMin (pI tMin v : Nat) : tMin ≤ samplerCandidate pI tMin v :=
  Nat.le_add_left tMin (samplerEvenPart pI v)

/-- Claim C4: uipow(base, p) is claimed to equal base to the p-th power for every
base at least 2, so that apowrhalf = uipow(base, p) mod toFactor is base ^ p mod N.
The code (src/qimcifa.cpp, lines 84-101) tests b & 1, the parity of the running
base, instead of the exponent bit e & 1, so already uipow(2, 3) returns 1 instead
of 8: the code contradicts the integer-power routine it cites and the spec. -/
theorem claim_C4_bug : uipow 2 3 = 1 ∧ (2 : Nat) ^ 3 = 8 ∧ uipow 2 3 ≠ 2 ^ 3 := by
  have h : uipow 2 3 = 1 := by simp [uipow, uipowAux]
  exact ⟨h, by norm_num, by rw [h]; norm_num⟩

/-- The gcd of src/qimcifa.cpp returns its first argument when the second is zero. -/
theorem gcd_zero_right (a : Nat) : gcd a 0 = a := by
  unfold gcd
  simp

/-- The gcd recursion unfolds along the Euclidean step for a nonzero second argument. -/
theorem gcd_step (a b : Nat) : gcd a (b + 1) = gcd (b + 1) (a % (b + 1)) := by
  rw [gcd]
  simp

/-- Any fuel exceeding the second argument is enough for gcdFuel to complete and
agree with the recursive gcd: the second argument strictly decreases. -/
theorem gcdFuel_eq (b : Nat) : ∀ a f, b < f → gcdFuel f a b = some (gcd a b) := by
  induction b using Nat.strong_induction_on with
  | _ b ih =>
    intro a f hf
    match f, hf with
    | (fp + 1), _ =>
      by_cases hb : b = 0
      · subst hb
        simp [gcdFuel, gcd_zero_right]
      · have hlt : a % b < b := Nat.mod_lt _ (Nat.pos_of_ne_zero hb)
        have h1 : gcdFuel (fp + 1) a b = gcdFuel fp b (a % b) := by
          simp [gcdFuel, hb]
        have h2 : gcd a b = gcd b (a % b) := by
          rw [gcd]
          simp [hb]
        rw [h1, ih (a % b) hlt b fp (by omega), h2]

/-- Claim C8: gcd(a, 0) equals a for every non-negative integer a, and the recursion
gcd(a, b) = gcd(b, a mod b) terminates for every pair of non-negative integers:
the recursive gcd of src/qimcifa.cpp, lines 115-120, is total, satisfies both
defining equations, and is computed by the fuel-indexed variant within b + 1 steps. -/
theorem claim_C8 :
    (∀ a, gcd a 0 = a) ∧
    (∀ a b, gcd a (b + 1) = gcd (b + 1) (a % (b + 1))) ∧
    (∀ a b, gcdFuel (b + 1) a b = some (gcd a b)) :=
  ⟨gcd_zero_right, gcd_step, fun a b => gcdFuel_eq b a (b + 1) (Nat.lt_succ_self b)⟩

/-- Above the lookup-table region the trial-division level is the floored
formula value. -/
theorem pickLevel_formula (q : Nat) (h : 70 < q) :
    pickTrialDivisionLevel q = ⌊Real.exp (1.69 + 0.0971 * (q : ℝ)) + 1 / 2⌋₊ := by
  unfold pickTrialDivisionLevel
  rw [if_neg (by omega), if_neg (by omega), if_neg (by omega), if_neg (by omega),
    if_neg (by omega), if_neg (by omega), if_neg (by omega)]

/-- For a 7-bit input the trial-division level is the first table entry, 59. -/
theorem pickLevel_seven : pickTrialDivisionLevel 7 = 59 := by
  unfold pickTrialDivisionLevel
  norm_num

/-- Claim C9: pickTrialDivisionLevel is monotonically non-decreasing in qubitCount
beyond the fixed lookup-table region (qubitCount > 70), where the level is computed
as round(exp(1.69 + 0.0971 * qubitCount)); the rounded exponential (modelled over
the exact reals) is monotone because the exponent is increasing in qubitCount and
both the exponential and the floor are monotone. -/
theorem claim_C9 (q1 q2 : Nat) (h1 : 70 < q1) (h12 : q1 ≤ q2) :
    pickTrialDivisionLevel q1 ≤ pickTrialDivisionLevel q2 := by
  rw [pickLevel_formula q1 h1, pickLevel_formula q2 (by omega)]
  apply Nat.floor_mono
  have hc : (q1 : ℝ) ≤ (q2 : ℝ) := by exact_mod_cast h12
  have harg : (1.69 : ℝ) + 0.0971 * q1 ≤ 1.69 + 0.0971 * q2 := by nlinarith
  have hexp := Real.exp_le_exp.mpr harg
  linarith

/-- Witness for claim C9 at the concrete qubit counts 71 and 72. -/
theorem claim_C9_witness :
    (70 < 71 ∧ 71 ≤ 72) ∧ pickTrialDivisionLevel 71 ≤ pickTrialDivisionLevel 72 :=
  ⟨by norm_num, claim_C9 71 72 (by norm_num) (by norm_num)⟩

set_option maxRecDepth 100000

/-- Claim C1, counterexample: for the input toFactor = 75 (7 bits), running with
nodeCount = 1, nodeId = 0 and one hardware thread, the partitioner derives
fullMinBase = 5, fullMaxBase = 31, an aligned threadMin of 3, threadMax = 7 and a
raw range of 3, so the raw draw 0 is legal; the sampler then produces the candidate
base 75 = toFactor itself.  The semiprime fast path accepts it (75 mod 75 = 0) and
reports the pair (75, 1), whose second component is not greater than 1. -/
theorem claim_C1_counterexample :
    qubitCountOf 75 = 7 ∧
    pickTrialDivisionLevel 7 = 59 ∧
    primeIndexFor 59 = 17 ∧
    fullMinBase 7 = 5 ∧ fullMaxBase 7 = 31 ∧
    shrinkRange 59 (31 + 1 - 5) = 0 ∧
    nodeRangeD 0 1 = 0 ∧ nodeMinD 5 0 0 = 5 ∧ nodeMaxD 5 0 0 = 5 ∧
    threadRangeD 1 5 5 = 2 ∧
    threadMinRawD 5 2 0 = 5 ∧
    threadMinAligned 59 5 = 3 ∧
    threadMaxD 5 2 = 7 ∧
    rangeD 3 7 = 3 ∧
    samplerCandidate 17 3 0 = 75 ∧
    semiprimeCheck 75 (samplerCandidate 17 3 0) = true ∧
    semiprimeReport 75 (samplerCandidate 17 3 0) = (75, 1) ∧
    ¬ 1 < (semiprimeReport 75 (samplerCandidate 17 3 0)).2 := by
  refine ⟨by decide, pickLevel_seven, ?_⟩
  decide

/-- Claim C1, amended: the general path of src/qimcifa.cpp reports success only
when its guard holds, so every reported pair there satisfies f1 * f2 = N, f1 > 1
and f2 > 1; the semiprime fast path's pair (base, N / base) always satisfies
base * (N / base) = N and base > 1 (the candidate is at least the aligned
threadMin, which is at least 3), but N / base > 1 can fail, because the sampler
can produce base = N. -/
theorem claim_C1_amended :
    (∀ N f1 f2 : Nat, generalSuccessCheck N f1 f2 = true → f1 * f2 = N ∧ 1 < f1 ∧ 1 < f2) ∧
    (∀ N L t pI v : Nat,
      semiprimeCheck N (samplerCandidate pI (threadMinAligned L t) v) = true →
        (semiprimeReport N (samplerCandidate pI (threadMinAligned L t) v)).1 *
            (semiprimeReport N (samplerCandidate pI (threadMinAligned L t) v)).2 = N ∧
          1 < (semiprimeReport N (samplerCandidate pI (threadMinAligned L t) v)).1) := by
  constructor
  · intro N f1 f2 h
    unfold generalSuccessCheck at h
    simp only [Bool.and_eq_true, beq_iff_eq, Nat.blt_eq] at h
    exact ⟨h.1.1, h.1.2, h.2⟩
  · intro N L t pI v h
    unfold semiprimeCheck at h
    simp only [beq_iff_eq] at h
    have hbase : 3 ≤ samplerCandidate pI (threadMinAligned L t) v :=
      le_trans (threadMinAligned_ge_three L t) (samplerCandidate_ge_tMin pI _ v)
    have hdvd : samplerCandidate pI (threadMinAligned L t) v ∣ N :=
      Nat.dvd_of_mod_eq_zero h
    constructor
    · show samplerCandidate pI (threadMinAligned L t) v *
        (N / samplerCandidate pI (threadMinAligned L t) v) = N
      exact Nat.mul_div_cancel' hdvd
    · show 1 < samplerCandidate pI (threadMinAligned L t) v
      omega

/-- Witness for claim C1 (amended), at N = 150 with the aligned threadMin 3
(alignment input 0), primeIndex 17 and raw draw 0: the candidate is 75, it divides
150, and the reported pair is (75, 2). -/
theorem claim_C1_witness :
    semiprimeCheck 150 (samplerCandidate 17 (threadMinAligned 59 0) 0) = true ∧
    ((semiprimeReport 150 (samplerCandidate 17 (threadMinAligned 59 0) 0)).1 *
        (semiprimeReport 150 (samplerCandidate 17 (threadMinAligned 59 0) 0)).2 = 150 ∧
      1 < (semiprimeReport 150 (samplerCandidate 17 (threadMinAligned 59 0) 0)).1) :=
  ⟨by decide, claim_C1_amended.2 150 59 0 17 0 (by decide)⟩

/-- Claim C2, counterexample: in the same reachable configuration as for C1
(toFactor = 75, level 59, primeIndex 17, aligned threadMin 3), the raw draw 0 is
transformed into the candidate 75, which is divisible by the trial-division primes
3 and 5, both at most the level 59 and both in the table: the arithmetic transform
does not exclude divisibility by the covered odd primes. -/
theorem claim_C2_counterexample :
    qubitCountOf 75 = 7 ∧
    pickTrialDivisionLevel 7 = 59 ∧
    primeIndexFor 59 = 17 ∧
    threadMinAligned 59 (threadMinRawD 5 2 0) = 3 ∧
    samplerCandidate 17 3 0 = 75 ∧
    3 ∈ trialDivisionPrimes ∧ 3 ≤ 59 ∧ samplerCandidate 17 3 0 % 3 = 0 ∧
    5 ∈ trialDivisionPrimes ∧ 5 ≤ 59 ∧ samplerCandidate 17 3 0 % 5 = 0 := by
  refine ⟨by decide, pickLevel_seven, ?_⟩
  decide

/-- Claim C2, amended: the only divisibility exclusion the transform does guarantee
is by 2: the final step lands on an even offset and the aligned threadMin is odd,
so every candidate base is odd.  Non-divisibility by the odd trial-division primes
is not guaranteed (see the counterexample). -/
theorem claim_C2_amended (L t pI v : Nat) :
    samplerCandidate pI (threadMinAligned L t) v % 2 = 1 := by
  unfold samplerCandidate
  have h1 := samplerEvenPart_mod_two pI v
  have h2 := threadMinAligned_mod_two L t
  omega

/-- Claim C6, counterexample: in the reachable configuration of the 75 run the
thread interval is threadMin = 3 (aligned), threadMax = 7, yet the candidate
produced from the legal raw draw 0 is 75, far outside threadMax: the transform
inflates the draw beyond the thread interval. -/
theorem claim_C6_counterexample :
    qubitCountOf 75 = 7 ∧
    pickTrialDivisionLevel 7 = 59 ∧
    primeIndexFor 59 = 17 ∧
    threadRangeD 1 5 5 = 2 ∧ threadMinRawD 5 2 0 = 5 ∧
    threadMinAligned 59 5 = 3 ∧ threadMaxD 5 2 = 7 ∧
    rangeD 3 7 = 3 ∧
    samplerCandidate 17 3 0 = 75 ∧
    ¬ samplerCandidate 17 3 0 < threadMaxD 5 2 := by
  refine ⟨by decide, pickLevel_seven, ?_⟩
  decide

/-- Claim C6, amended: every candidate base lies at or above threadMin (the
transform adds threadMin to a non-negative offset), but the upper bound
threadMax of the claimed half-open interval does not hold (see the
counterexample). -/
theorem claim_C6_amended (pI tMin v : Nat) : tMin ≤ samplerCandidate pI tMin v :=
  samplerCandidate_ge_tMin pI tMin v

/-- Claim C5, counterexample: at the reachable values nodeMin = nodeMax = 5 and
cpuCount = 1 (the 75 run), the code computes threadRange = (1 + 5 - 4) / 1 = 2,
whereas ceil(nodeRange / cpuCount) = (0 + 1 - 1) / 1 = 0. -/
theorem claim_C5_counterexample :
    threadRangeD 1 5 5 = 2 ∧ ((5 - 5) + 1 - 1) / 1 = 0 ∧
    threadRangeD 1 5 5 ≠ ((5 - 5) + 1 - 1) / 1 := by
  decide

/-- Claim C5, amended: for cpuCount ≥ 1 and 1 ≤ nodeMin ≤ nodeMax, the computed
threadRange equals (nodeRange + cpuCount + 1) / cpuCount, the ceiling of
(nodeRange + 2) / cpuCount, where nodeRange = nodeMax - nodeMin; it is not the
ceiling of nodeRange / cpuCount. -/
theorem claim_C5_amended (c mn mx : Nat) (hc : 1 ≤ c) (hmn : 1 ≤ mn) (hmx : mn ≤ mx) :
    threadRangeD c mn mx = ((mx - mn) + c + 1) / c := by
  unfold threadRangeD
  congr 1
  omega

/-- Witness for claim C5 (amended) at cpuCount = 1, nodeMin = nodeMax = 5. -/
theorem claim_C5_witness : threadRangeD 1 5 5 = ((5 - 5) + 1 + 1) / 1 :=
  claim_C5_amended 1 5 5 (by decide) (by decide) (by decide)

/-- Claim C3, counterexample: for the 7-bit run the full interval is
fullMinBase = 5 to fullMaxBase = 31, but the prime-by-prime shrink at level 59
truncates fullRange = 27 down to 0, so with nodeCount = 1 the single node range is
the degenerate interval from 5 to 5 and the point 31 of the full interval is
covered by no node: the union of node ranges does not cover the full interval. -/
theorem claim_C3_counterexample :
    fullMinBase 7 = 5 ∧ fullMaxBase 7 = 31 ∧
    shrinkRange 59 (31 + 1 - 5) = 0 ∧
    nodeRangeD (shrinkRange 59 (31 + 1 - 5)) 1 = 0 ∧
    ¬ ∃ i, i < 1 ∧ nodeMinD 5 (nodeRangeD (shrinkRange 59 (31 + 1 - 5)) 1) i ≤ 31 ∧
        31 ≤ nodeMaxD 5 (nodeRangeD (shrinkRange 59 (31 + 1 - 5)) 1) i := by
  refine ⟨by decide, by decide, by decide, by decide, ?_⟩
  rintro ⟨i, hi, h1, h2⟩
  have hz : nodeRangeD (shrinkRange 59 (31 + 1 - 5)) 1 = 0 := by decide
  rw [hz] at h2
  unfold nodeMaxD at h2
  omega

/-- Claim C3, amended: the node ranges computed from the shrunk fullRange cover
the interval from fullMinBase to fullMinBase + shrunkRange with no gaps, adjacent
node ranges abutting exactly at their shared boundary point; they do not in
general cover up to fullMaxBase, because the prime-by-prime shrink makes
shrunkRange smaller than the true width of the full interval. -/
theorem claim_C3_amended (fullMin shrunk nc : Nat) (hnc : 1 ≤ nc) :
    (∀ x, fullMin ≤ x → x ≤ fullMin + shrunk →
      ∃ i, i < nc ∧ nodeMinD fullMin (nodeRangeD shrunk nc) i ≤ x ∧
        x ≤ nodeMaxD fullMin (nodeRangeD shrunk nc) i) ∧
    (∀ i, nodeMaxD fullMin (nodeRangeD shrunk nc) i
        = nodeMinD fullMin (nodeRangeD shrunk nc) (i + 1)) := by
  constructor
  · intro x h1 h2
    set R := nodeRangeD shrunk nc with hR
    have hceil : shrunk ≤ R * nc := by
      rw [hR]
      unfold nodeRangeD
      generalize hq : (shrunk + nc - 1) / nc = q
      have hdm := Nat.div_add_mod (shrunk + nc - 1) nc
      rw [hq] at hdm
      have hmod : (shrunk + nc - 1) % nc < nc := Nat.mod_lt _ (by omega)
      have hc : q * nc = nc * q := Nat.mul_comm q nc
      omega
    by_cases hR0 : R = 0
    · refine ⟨0, by omega, ?_, ?_⟩
      · unfold nodeMinD
        omega
      · unfold nodeMaxD
        rw [hR0] at hceil ⊢
        omega
    · have hRpos : 0 < R := Nat.pos_of_ne_zero hR0
      have hdm := Nat.div_add_mod (x - fullMin) R
      have hm : (x - fullMin) % R < R := Nat.mod_lt _ hRpos
      by_cases hq : (x - fullMin) / R < nc
      · refine ⟨(x - fullMin) / R, hq, ?_, ?_⟩
        · unfold nodeMinD
          omega
        · unfold nodeMaxD
          omega
      · have hqge : nc ≤ (x - fullMin) / R := by omega
        have hmul : R * nc ≤ R * ((x - fullMin) / R) := Nat.mul_le_mul_left R hqge
        have hsub : R * (nc - 1) + R = R * nc := by
          have h : nc - 1 + 1 = nc := by omega
          calc R * (nc - 1) + R = R * (nc - 1 + 1) := by rw [Nat.mul_add, Nat.mul_one]
            _ = R * nc := by rw [h]
        refine ⟨nc - 1, by omega, ?_, ?_⟩
        · unfold nodeMinD
          omega
        · unfold nodeMaxD
          omega
  · intro i
    unfold nodeMaxD nodeMinD
    ring

/-- Witness for claim C3 (amended) at fullMin = 5, shrunk = 7, nodeCount = 3,
checking coverage of the point 9 and the abutting of ranges 1 and 2. -/
theorem claim_C3_witness :
    (∃ i, i < 3 ∧ nodeMinD 5 (nodeRangeD 7 3) i ≤ 9 ∧ 9 ≤ nodeMaxD 5 (nodeRangeD 7 3) i) ∧
    nodeMaxD 5 (nodeRangeD 7 3) 1 = nodeMinD 5 (nodeRangeD 7 3) 2 :=
  ⟨(claim_C3_amended 5 7 3 (by decide)).1 9 (by decide) (by decide),
    (claim_C3_amended 5 7 3 (by decide)).2 1⟩

/-- On any non-empty term list, calc_continued_fraction returns a value: the none
branch is exactly the empty-list case of back(). -/
theorem calc_cf_isSome (l : List Nat) (h : l ≠ []) :
    (calc_continued_fraction l).isSome = true := by
  obtain ⟨lastD, hl⟩ := Option.isSome_iff_exists.mp
    ((List.getLast?_isSome (l := l)).mpr h)
  unfold calc_continued_fraction
  rw [hl]
  rfl

/-- The expansion loop of src/qimcifa.cpp always returns a term list when entered
with a positive denominator: the pushed list is never empty, so the in-loop
convergent computation never takes the none branch, and the denominator strictly
decreases, so the loop terminates. -/
theorem cfLoop_isSome (N : Nat) :
    ∀ d, 0 < d → ∀ acc n, (cfLoop N acc n d).isSome = true := by
  intro d
  induction d using Nat.strong_induction_on with
  | _ d ih =>
    intro hd acc n
    rw [cfLoop, dif_neg (by omega : ¬ d = 0)]
    have hsome := calc_cf_isSome (acc ++ [n / d]) (by simp)
    obtain ⟨pr, hpr⟩ := Option.isSome_iff_exists.mp hsome
    simp only [hpr]
    by_cases hcond : 0 < n % d ∧ pr.2 < N
    · rw [if_pos hcond]
      exact ih (n % d) (Nat.mod_lt _ hd) hcond.1 _ _
    · rw [if_neg hcond]
      rfl

/-- Claim C10: in the general path's continued-fraction loop,
calc_continued_fraction is only ever invoked with a non-empty term list, so in the
total embedding where back() on an empty list yields an Option, the none branch is
unreachable: for every toFactor, initial numerator and positive denominator y the
whole period-candidate extraction returns a value. -/
theorem claim_C10 (N n0 y : Nat) (hy : 0 < y) : (cfResult N n0 y).isSome = true := by
  unfold cfResult
  obtain ⟨full, hfull⟩ := Option.isSome_iff_exists.mp (cfLoop_isSome N y hy [] n0)
  simp only [hfull]
  by_cases hlen : full.dropLast.length = 0
  · rw [if_pos hlen]
    rfl
  · rw [if_neg hlen]
    have hne : full.dropLast ≠ [] := by
      intro hcon
      rw [hcon] at hlen
      exact hlen rfl
    obtain ⟨pr, hpr⟩ := Option.isSome_iff_exists.mp (calc_cf_isSome full.dropLast hne)
    simp only [hpr]
    rfl

/-- Witness for claim C10 at toFactor = 75, numerator 16 and denominator 7. -/
theorem claim_C10_witness : 0 < 7 ∧ (cfResult 75 16 7).isSome = true :=
  ⟨by decide, claim_C10 75 16 7 (by decide)⟩

/-- Appending a single report to the event list adds one to its author's count
and leaves every other count unchanged. -/
theorem countEvents_append (i : Nat) (l : List Nat) (j : Nat) :
    countEvents i (l ++ [j]) = countEvents i l + (if j == i then 1 else 0) := by
  unfold countEvents
  rw [List.filter_append, List.length_append]
  congr 1
  by_cases h : j = i
  · subst h
    simp
  · have hb : (j == i) = false := beq_eq_false_iff_ne.mpr h
    simp [List.filter_singleton, hb]

/-- The status of thread i is untouched when some other thread j is updated. -/
theorem statusOf_set_ne (f : Bool) (ev : List Nat) (ts : List TState) (j : Nat) (a : TState)
    (i : Nat) (hij : j ≠ i) :
    statusOf (MState.mk f (ts.set j a) ev) i = (ts[i]?).map TState.status := by
  show ((ts.set j a)[i]?).map TState.status = (ts[i]?).map TState.status
  rw [List.getElem?_set_ne hij]

/-- When thread j holds state t, a same-thread status claim transfers to t. -/
theorem statusOf_some (s : MState) (j : Nat) (t : TState) (hjq : s.threads[j]? = some t)
    (st : TStatus) (h : statusOf s j = some st) : t.status = st := by
  unfold statusOf at h
  rw [hjq] at h
  injection h

/-- A step by any thread leaves a halted thread halted and adds no report for it. -/
theorem stepThread_preserves_halted (N pI tMin : Nat) (draws : Nat → Nat → Nat)
    (s : MState) (i j : Nat) (h : statusOf s i = some TStatus.halted) :
    statusOf (stepThread N pI tMin draws s j) i = some TStatus.halted ∧
    countEvents i (stepThread N pI tMin draws s j).events = countEvents i s.events := by
  unfold stepThread
  split
  · exact ⟨h, rfl⟩
  · rename_i t hjq
    have hne_of_status : ∀ st, t.status = st → st ≠ TStatus.halted → j ≠ i := by
      intro st hst hne hji
      subst hji
      exact hne (by rw [← hst]; exact statusOf_some s j t hjq TStatus.halted h)
    split
    · exact ⟨h, rfl⟩
    · exact ⟨h, rfl⟩
    · rename_i hts
      have hij : j ≠ i := hne_of_status TStatus.checking hts (by intro hc; exact TStatus.noConfusion hc)
      split
      · refine ⟨?_, rfl⟩
        rw [statusOf_set_ne _ _ _ _ _ _ hij]
        exact h
      · refine ⟨?_, rfl⟩
        rw [statusOf_set_ne _ _ _ _ _ _ hij]
        exact h
    · rename_i hts
      have hij : j ≠ i := hne_of_status TStatus.running hts (by intro hc; exact TStatus.noConfusion hc)
      split
      · constructor
        · rw [statusOf_set_ne _ _ _ _ _ _ hij]
          exact h
        · show countEvents i (s.events ++ [j]) = countEvents i s.events
          rw [countEvents_append]
          have hb : (j == i) = false := beq_eq_false_iff_ne.mpr hij
          rw [hb]
          simp
      · refine ⟨?_, rfl⟩
        rw [statusOf_set_ne _ _ _ _ _ _ hij]
        exact h

/-- The start state satisfies the at-most-one-report invariant. -/
theorem eventsInv_init (n : Nat) : EventsInv (initState n) := by
  intro i
  refine ⟨?_, ?_⟩ <;> simp [initState, countEvents]

/-- One scheduler step preserves the at-most-one-report invariant: a report is
emitted only by the final running-to-succeeded transition, and a thread that has
already reported is stopped and can never report again. -/
theorem eventsInv_step (N pI tMin : Nat) (draws : Nat → Nat → Nat) (j : Nat) (s : MState)
    (h : EventsInv s) : EventsInv (stepThread N pI tMin draws s j) := by
  unfold stepThread
  split
  · exact h
  · rename_i t hjq
    have hjlen : j < s.threads.length := by
      by_contra hc
      rw [List.getElem?_eq_none (by omega)] at hjq
      exact Option.noConfusion hjq
    have hcnt0 : t.status ≠ TStatus.succeeded → countEvents j s.events = 0 := by
      intro hne
      by_contra hc
      have h1 := (h j).2 (by omega)
      exact hne (statusOf_some s j t hjq TStatus.succeeded h1)
    split
    · exact h
    · exact h
    · rename_i hts
      have hj0 : countEvents j s.events = 0 :=
        hcnt0 (by rw [hts]; intro hc; exact TStatus.noConfusion hc)
      split
      · intro i
        refine ⟨(h i).1, ?_⟩
        intro hge
        by_cases hij : j = i
        · subst hij
          have hge2 : 1 ≤ countEvents j s.events := hge
          omega
        · rw [statusOf_set_ne _ _ _ _ _ _ hij]
          exact (h i).2 hge
      · intro i
        refine ⟨(h i).1, ?_⟩
        intro hge
        by_cases hij : j = i
        · subst hij
          have hge2 : 1 ≤ countEvents j s.events := hge
          omega
        · rw [statusOf_set_ne _ _ _ _ _ _ hij]
          exact (h i).2 hge
    · rename_i hts
      have hj0 : countEvents j s.events = 0 :=
        hcnt0 (by rw [hts]; intro hc; exact TStatus.noConfusion hc)
      split
      · intro i
        by_cases hij : j = i
        · subst hij
          constructor
          · show countEvents j (s.events ++ [j]) ≤ 1
            rw [countEvents_append, hj0]
            simp
          · intro hge
            show ((s.threads.set j (TState.mk t.cands TStatus.succeeded))[j]?).map
              TState.status = some TStatus.succeeded
            rw [List.getElem?_set_eq_of_lt _ hjlen]
            rfl
        · have hb : (j == i) = false := beq_eq_false_iff_ne.mpr hij
          constructor
          · show countEvents i (s.events ++ [j]) ≤ 1
            rw [countEvents_append, hb]
            have := (h i).1
            simp
            omega
          · intro hge
            have hge2 : 1 ≤ countEvents i (s.events ++ [j]) := hge
            rw [countEvents_append, hb] at hge2
            simp at hge2
            rw [statusOf_set_ne _ _ _ _ _ _ hij]
            exact (h i).2 hge2
      · intro i
        refine ⟨(h i).1, ?_⟩
        intro hge
        by_cases hij : j = i
        · subst hij
          have hge2 : 1 ≤ countEvents j s.events := hge
          omega
        · rw [statusOf_set_ne _ _ _ _ _ _ hij]
          exact (h i).2 hge

/-- The at-most-one-report invariant is preserved by a whole schedule. -/
theorem eventsInv_exec (N pI tMin : Nat) (draws : Nat → Nat → Nat) :
    ∀ (sched : List Nat) (s : MState), EventsInv s →
      EventsInv (execSched N pI tMin draws sched s) := by
  intro sched
  induction sched with
  | nil => intro s h; exact h
  | cons a as ih =>
    intro s h
    exact ih (stepThread N pI tMin draws s a) (eventsInv_step N pI tMin draws a s h)

/-- A halted thread stays halted and silent over a whole schedule. -/
theorem execSched_halted (N pI tMin : Nat) (draws : Nat → Nat → Nat) :
    ∀ (sched : List Nat) (s : MState) (i : Nat), statusOf s i = some TStatus.halted →
      statusOf (execSched N pI tMin draws sched s) i = some TStatus.halted ∧
      countEvents i (execSched N pI tMin draws sched s).events = countEvents i s.events := by
  intro sched
  induction sched with
  | nil => intro s i h; exact ⟨h, rfl⟩
  | cons a as ih =>
    intro s i h
    have hstep := stepThread_preserves_halted N pI tMin draws s i a h
    have hrest := ih (stepThread N pI tMin draws s a) i hstep.1
    refine ⟨hrest.1, ?_⟩
    have hunf : countEvents i (execSched N pI tMin draws (a :: as) s).events
        = countEvents i (execSched N pI tMin draws as (stepThread N pI tMin draws s a)).events :=
      rfl
    rw [hunf, hrest.2, hstep.2]

/-- Claim C7, amended: in the interleaving model of waitForSuccess, each thread
reports success at most once in any schedule from the start state, and once a
thread has observed the flag true at a batch boundary (status halted) it reports
nothing further under any continuation of the schedule.  The stronger claim that
the success report is produced exactly once per run fails: two threads can each
report before either reaches its next batch-boundary flag check (see the
counterexample). -/
theorem claim_C7_amended :
    (∀ (N pI tMin : Nat) (draws : Nat → Nat → Nat) (n : Nat) (sched : List Nat) (i : Nat),
      countEvents i (execSched N pI tMin draws sched (initState n)).events ≤ 1) ∧
    (∀ (N pI tMin : Nat) (draws : Nat → Nat → Nat) (s : MState) (sched : List Nat) (i : Nat),
      statusOf s i = some TStatus.halted →
        countEvents i (execSched N pI tMin draws sched s).events = countEvents i s.events) := by
  constructor
  · intro N pI tMin draws n sched i
    exact (eventsInv_exec N pI tMin draws sched (initState n) (eventsInv_init n) i).1
  · intro N pI tMin draws s sched i h
    exact (execSched_halted N pI tMin draws sched s i h).2

/-- Witness for claim C7 (amended): the first part at a concrete two-thread run,
and the second part at a concrete state whose only thread is halted. -/
theorem claim_C7_witness :
    countEvents 0 (execSched 75 17 3 (fun _ _ => 0) [0, 1] (initState 2)).events ≤ 1 ∧
    (statusOf (MState.mk false [TState.mk 0 TStatus.halted] [1]) 0 = some TStatus.halted ∧
      countEvents 0 (execSched 75 17 3 (fun _ _ => 0) [0, 0]
          (MState.mk false [TState.mk 0 TStatus.halted] [1])).events
        = countEvents 0 (MState.mk false [TState.mk 0 TStatus.halted] [1]).events) :=
  ⟨claim_C7_amended.1 75 17 3 (fun _ _ => 0) 2 [0, 1] 0,
    by decide,
    claim_C7_amended.2 75 17 3 (fun _ _ => 0) (MState.mk false [TState.mk 0 TStatus.halted] [1])
      [0, 0] 0 (by decide)⟩

/-- Claim C7, counterexample: with toFactor = 75, primeIndex 17, aligned
threadMin 3 (the reachable configuration of the 75 run), two threads whose first
raw draw is 0 both find the candidate 75 dividing 75.  Under the schedule that
lets thread 0 step once and then thread 1 step once, thread 0 reports and sets the
flag, and thread 1, which is still inside its first batch and never observed the
flag, reports as well: the success print is produced twice in one run, not exactly
once. -/
theorem claim_C7_counterexample :
    (execSched 75 17 3 (fun _ _ => 0) [0, 1] (initState 2)).events = [0, 1] ∧
    (execSched 75 17 3 (fun _ _ => 0) [0, 1] (initState 2)).flag = true ∧
    ¬ (execSched 75 17 3 (fun _ _ => 0) [0, 1] (initState 2)).events.length ≤ 1 := by
  refine ⟨?_, ?_, ?_⟩ <;> decide

end Qimcifa
